import Mathlib

/-!
Verification of the QuranBot core against its specification.

This file gives a shallow embedding, in Lean 4, of the components of the
repository that the specification's claims are about:

* `search.py`    — the Arabic text normalizer `normalize_arabic`;
* `nlu.py`       — the natural-language reference resolver `parse_message`
                   with its helper detectors;
* `audio.py`     — the audio artifact builder `gen_mp3` (modelled over an
                   explicit file-system state);
* `core/audio.py`— the timings builder `gen_timings`;
* `video.py`     — the output-path computation of `gen_video`.

Python strings are modelled as Lean `String`/`List Char`; the regular
expressions of the source are character-class or keyword scanners and are
embedded as explicit scanning functions with the same leftmost-match
semantics.  Machinery external to the repository (the rapidfuzz `WRatio`
scorer, the network downloader, ffmpeg, soxi) is modelled as explicit
function parameters, so every theorem quantifies over their behavior.
-/

namespace QuranBot

/-! ### Python character classes and primitives

`isPySpace` is the set of characters matched by Python's `\s` (and stripped
by `str.strip()`) for `str` patterns.  `isPyDigit` models `\d` restricted to
the digit scripts that occur in this application's data (ASCII, Arabic-Indic
and Extended Arabic-Indic); `int()` on such digit runs is `toNatDigits`. -/

def isPySpace (c : Char) : Bool :=
  decide (c.toNat = 9 ∨ c.toNat = 10 ∨ c.toNat = 11 ∨ c.toNat = 12 ∨ c.toNat = 13 ∨
    (28 ≤ c.toNat ∧ c.toNat ≤ 31) ∨ c.toNat = 32 ∨ c.toNat = 0x85 ∨ c.toNat = 0xA0 ∨
    c.toNat = 0x1680 ∨ (0x2000 ≤ c.toNat ∧ c.toNat ≤ 0x200A) ∨ c.toNat = 0x2028 ∨
    c.toNat = 0x2029 ∨ c.toNat = 0x202F ∨ c.toNat = 0x205F ∨ c.toNat = 0x3000)

def isPyDigit (c : Char) : Bool :=
  decide ((48 ≤ c.toNat ∧ c.toNat ≤ 57) ∨ (0x660 ≤ c.toNat ∧ c.toNat ≤ 0x669) ∨
    (0x6F0 ≤ c.toNat ∧ c.toNat ≤ 0x6F9))

/-- `str.isdigit()`'s character class is strictly larger than `\d`/`int()`'s:
it also accepts Numeric_Type=Digit characters that are not decimal digits —
superscripts `¹²³` (U+00B9/B2/B3), the superscript block U+2070,
U+2074–U+2079, the subscript block U+2080–U+2089, circled digits
U+2460–U+2468 — all of which `int()` rejects with `ValueError`. -/
def isPyDigitStr (c : Char) : Bool :=
  isPyDigit c ||
    decide (c.toNat = 0xB2 ∨ c.toNat = 0xB3 ∨ c.toNat = 0xB9 ∨ c.toNat = 0x2070 ∨
      (0x2074 ≤ c.toNat ∧ c.toNat ≤ 0x2079) ∨ (0x2080 ≤ c.toNat ∧ c.toNat ≤ 0x2089) ∨
      (0x2460 ≤ c.toNat ∧ c.toNat ≤ 0x2468))

def digitVal (c : Char) : Nat :=
  if 0x660 ≤ c.toNat ∧ c.toNat ≤ 0x669 then c.toNat - 0x660
  else if 0x6F0 ≤ c.toNat ∧ c.toNat ≤ 0x6F9 then c.toNat - 0x6F0
  else c.toNat - 48

def toNatDigits (l : List Char) : Nat :=
  l.foldl (fun a c => 10 * a + digitVal c) 0

/-- The single Python exception the resolver can propagate (`ValueError`
from `int()` in `_detect_range`). -/
inductive PyExc where
  | valueError
deriving DecidableEq, Repr

deriving instance DecidableEq for Except

/-- `int()` on an already-stripped string: succeeds exactly on nonempty
runs of decimal digits (the strings regex `\d+` produces), raising
`ValueError` (`none`) otherwise — in particular on `str.isdigit()`-true
strings containing a non-decimal digit such as `²`. -/
def pyInt (l : List Char) : Option Nat :=
  if l ≠ [] ∧ l.all isPyDigit then some (toNatDigits l) else none

/-- Python's case-insensitive matching for the ASCII keywords of `nlu.py`. -/
def lowerA (c : Char) : Char :=
  if 65 ≤ c.toNat ∧ c.toNat ≤ 90 then Char.ofNat (c.toNat + 32) else c

/-- `str.strip()` on a character list: drop whitespace at both ends. -/
def stripL (l : List Char) : List Char :=
  ((l.dropWhile isPySpace).reverse.dropWhile isPySpace).reverse

/-- `str.strip()` on strings (as used for `original = text.strip()`). -/
def pyStrip (s : String) : String := ⟨stripL s.data⟩

/-! ### `search.py` — `normalize_arabic`

The source applies, in order: fold Alif variants `إأآٱ` to `ا`; fold Alif
Maksura `ى` to `ي`; fold `ؤئ` to `ء`; remove the diacritics U+064B–U+065F;
remove Tatweel U+0640; remove the zero-width marks U+200B/C/D and U+FEFF
(the Ta-Marbuta rule and digit folding are commented out in the source);
then collapse `\s+` runs to a single space and strip the ends.  All the
substitutions are single-character classes, so they compose into one
character-wise map `normChar` (`none` = removed); the classes and their
images are pairwise disjoint, so the sequential order is immaterial. -/

def normChar (c : Char) : Option Char :=
  if c = 'إ' ∨ c = 'أ' ∨ c = 'آ' ∨ c = 'ٱ' then some 'ا'
  else if c = 'ى' then some 'ي'
  else if c = 'ؤ' ∨ c = 'ئ' then some 'ء'
  else if 0x64B ≤ c.toNat ∧ c.toNat ≤ 0x65F then none
  else if c.toNat = 0x640 then none
  else if c.toNat = 0x200B ∨ c.toNat = 0x200C ∨ c.toNat = 0x200D ∨ c.toNat = 0xFEFF then none
  else some c

/-- `re.sub(r"\s+", " ", ·)`: the flag records whether the previous kept
character was part of a whitespace run. -/
def collapseAux : Bool → List Char → List Char
  | _, [] => []
  | b, c :: cs =>
    if isPySpace c then
      if b then collapseAux true cs else ' ' :: collapseAux true cs
    else c :: collapseAux false cs

def normList (l : List Char) : List Char :=
  stripL (collapseAux false (l.filterMap normChar))

/-- The normalizer of `search.py`. -/
def normalize_arabic (s : String) : String := ⟨normList s.data⟩

/-- No two adjacent whitespace characters (the shape `re.sub(r"\s+", " ")`
leaves behind). -/
def noTwoSpaces (l : List Char) : Prop :=
  l.Chain' (fun a b => ¬(isPySpace a = true ∧ isPySpace b = true))

/-! ### `nlu.py` — data model of the resolver

`parse_message` returns one of five tagged dicts; `Intent` is the
corresponding closed sum type.  `quran_data["Sura"]` is a list of rows
(index 0 is a header row); numeric fields are decimal strings and `int()`
on them is decimal parsing. -/

inductive Intent where
  | page (page : Nat)
  | aya (sura aya : Nat)
  | range (sura from_aya to_aya : Nat)
  | surah (sura : Nat)
  | search (query : String)
deriving DecidableEq, Repr

structure SuraName where
  name : String
  sura : Nat
  lang : String
deriving DecidableEq, Repr

structure Chunk where
  sura : Nat
  aya : Option Nat
deriving DecidableEq, Repr

structure QuranData where
  sura : List (List String)
deriving DecidableEq, Repr

/-- Truthiness of a Python `int | None` value (`if x:`). -/
def pyTruthyOpt (o : Option Nat) : Bool :=
  match o with
  | some v => v != 0
  | none => false

/-- Python `x or d` for an `int | None` value `x`. -/
def pyOrNat (o : Option Nat) (d : Nat) : Nat :=
  match o with
  | some v => if v = 0 then d else v
  | none => d

/-- `_build_sura_names`: rows are enumerated from 1 starting at
`quran_data["Sura"][1]`; a row contributes its Arabic name (index 4), the
normalized Arabic name, and its English name (index 5) when present. -/
def build_sura_names_aux : Nat → List (List String) → List SuraName
  | _, [] => []
  | i, e :: rest =>
    (match e.get? 4 with
     | some n => [⟨n, i, "ar"⟩, ⟨normalize_arabic n, i, "ar_norm"⟩]
     | none => [])
    ++ (match e.get? 5 with
        | some n => [⟨n, i, "en"⟩]
        | none => [])
    ++ build_sura_names_aux (i + 1) rest

def build_sura_names (qd : QuranData) : List SuraName :=
  build_sura_names_aux 1 (qd.sura.drop 1)

/-- Modelled from the spec: `rapidfuzz.process.extractOne` with the `WRatio`
scorer is external library code.  The scorer is an abstract integer-valued
similarity function, and `extractOne` keeps the first best-scoring choice,
as the library does. -/
def extractOne (score : String → String → Nat) (query : String)
    (choices : List String) : Option (String × Nat) :=
  choices.foldl
    (fun acc c =>
      match acc with
      | none => some (c, score query c)
      | some (b, s) => if score query c > s then some (c, score query c) else some (b, s))
    none

/-- `_match_sura_name`: confident fuzzy match (score strictly above 80)
against the name catalog, then look up the first entry carrying the matched
name. -/
def match_sura_name (score : String → String → Nat) (text : String)
    (sura_names : List SuraName) : Option Nat :=
  if pyStrip text = "" then none
  else
    match extractOne score text (sura_names.map (·.name)) with
    | none => none
    | some (best, s) =>
      if s > 80 then
        match sura_names.find? (fun x => x.name == best) with
        | some x => some x.sura
        | none => none
      else none

/-! ### Keyword and pattern scanners

The regular expressions of `nlu.py` are alternations of literal keywords
(matched case-insensitively, first alternative wins, leftmost occurrence
first) with optional `\s+`/`\d+` tails; they are embedded as explicit
scanners.  The scanners take a fuel argument (the input length suffices:
every step consumes at least one character). -/

def lowerEq (a b : Char) : Bool := lowerA a == lowerA b

def matchCI : List Char → List Char → Option (List Char)
  | [], l => some l
  | _ :: _, [] => none
  | k :: ks, c :: cs => if lowerEq c k then matchCI ks cs else none

def firstKw (kws : List (List Char)) (l : List Char) : Option (List Char) :=
  match kws with
  | [] => none
  | k :: ks =>
    match matchCI k l with
    | some rest => some rest
    | none => firstKw ks l

/-- `re.sub(kw-alternation, "", ·)` (used for the label keywords). -/
def removeKwsF (kws : List (List Char)) : Nat → List Char → List Char
  | 0, l => l
  | _, [] => []
  | f + 1, c :: cs =>
    match firstKw kws (c :: cs) with
    | some rest => removeKwsF kws f rest
    | none => c :: removeKwsF kws f cs

def removeKws (kws : List (List Char)) (l : List Char) : List Char :=
  removeKwsF kws l.length l

/-- One attempt at `(kw-alternation)\s+` at the current position. -/
def kwSpace (kws : List (List Char)) (l : List Char) : Option (List Char) :=
  match firstKw kws l with
  | none => none
  | some rest =>
    match rest with
    | [] => none
    | c :: cs => if isPySpace c then some (cs.dropWhile isPySpace) else none

/-- `re.sub(r"(kw-alternation)\s+", repl, ·)`. -/
def subKwF (kws : List (List Char)) (repl : List Char) : Nat → List Char → List Char
  | 0, l => l
  | _, [] => []
  | f + 1, c :: cs =>
    match kwSpace kws (c :: cs) with
    | some rest => repl ++ subKwF kws repl f rest
    | none => c :: subKwF kws repl f cs

def subKw (kws : List (List Char)) (repl : List Char) (l : List Char) : List Char :=
  subKwF kws repl l.length l

def labelKws : List (List Char) :=
  ["from".data, "surah".data, "ayah".data, "verse".data, "sura".data, "aya".data]

def fromKws : List (List Char) := ["from".data, "من".data]

def toKws : List (List Char) :=
  ["to".data, "الي".data, "إلي".data, "حتي".data, "الى".data, "إلى".data, "حتى".data]

def pageKws : List (List Char) := ["page".data, "صفحة".data]

/-- `re.findall(r"\d+", ·)` with `int()` applied to each run. -/
def digitRunsF : Nat → List Char → List Nat
  | 0, _ => []
  | _, [] => []
  | f + 1, c :: cs =>
    if isPyDigit c then
      toNatDigits (c :: cs.takeWhile isPyDigit) :: digitRunsF f (cs.dropWhile isPyDigit)
    else digitRunsF f cs

def digitRuns (l : List Char) : List Nat := digitRunsF l.length l

/-! ### `nlu.py` — detectors and `parse_message` -/

/-- `_parse_chunk`: strip label keywords, extract the integers and the
non-numeric remainder; pure numbers give a validated chapter (1..114),
otherwise the remainder is fuzzy-matched as a surah name. -/
def parse_chunk (score : String → String → Nat) (sura_names : List SuraName)
    (text : String) : Option Chunk :=
  if text = "" then none
  else
    let clean := stripL (removeKws labelKws text.data)
    let numbers := digitRuns clean
    let text_part := stripL (clean.filter fun c => !isPyDigit c)
    if text_part = [] ∧ numbers ≠ [] then
      match numbers with
      | n :: rest => if 1 ≤ n ∧ n ≤ 114 then some ⟨n, rest.head?⟩ else none
      | [] => none
    else
      match match_sura_name score ⟨text_part⟩ sura_names with
      | some sura => if sura = 0 then none else some ⟨sura, numbers.head?⟩
      | none => none

/-- One attempt at `(page|صفحة)\s+(\d+)` at the current position. -/
def pageAt (l : List Char) : Option Nat :=
  match firstKw pageKws l with
  | none => none
  | some rest =>
    match rest with
    | [] => none
    | c :: cs =>
      if isPySpace c then
        let ds := (cs.dropWhile isPySpace).takeWhile isPyDigit
        if ds = [] then none else some (toNatDigits ds)
      else none

def findPageF : Nat → List Char → Option Nat
  | 0, _ => none
  | _, [] => none
  | f + 1, l@(_ :: cs) =>
    match pageAt l with
    | some n => some n
    | none => findPageF f cs

/-- `_detect_page`: the first regex match's number is range-checked; an
out-of-range first match yields no intent. -/
def detect_page (text : String) : Option Intent :=
  match findPageF text.data.length text.data with
  | none => none
  | some n => if 1 ≤ n ∧ n ≤ 604 then some (.page n) else none

/-- One attempt at `(\d+):(\d+)(?:-(\d+))?` at the current position:
maximal digit run, a colon, a second run, and an optional dash-run. -/
def colonAt (l : List Char) : Option (Nat × Nat × Option Nat) :=
  let d1 := l.takeWhile isPyDigit
  if d1 = [] then none
  else
    match l.drop d1.length with
    | ':' :: rest =>
      let d2 := rest.takeWhile isPyDigit
      if d2 = [] then none
      else
        match rest.drop d2.length with
        | '-' :: rest2 =>
          let d3 := rest2.takeWhile isPyDigit
          if d3 = [] then some (toNatDigits d1, toNatDigits d2, none)
          else some (toNatDigits d1, toNatDigits d2, some (toNatDigits d3))
        | _ => some (toNatDigits d1, toNatDigits d2, none)
    | _ => none

def findColonF : Nat → Nat → List Char → Option (Nat × Nat × Option Nat × Nat)
  | 0, _, _ => none
  | _, _, [] => none
  | f + 1, i, l@(_ :: cs) =>
    match colonAt l with
    | some (s1, a1, a2) => some (s1, a1, a2, i)
    | none => findColonF f (i + 1) cs

/-- Embeds `_detect_colon_notation` of `nlu.py`: `S:A` / `S:A-B` anywhere in
the original text, with the text before the match optionally resolving as a
surah name that overrides the numeric chapter. -/
def detect_colon (score : String → String → Nat) (sura_names : List SuraName)
    (original : String) : Option Intent :=
  match findColonF original.data.length 0 original.data with
  | none => none
  | some (s1, a1, a2, i) =>
    let pre := pyStrip ⟨original.data.take i⟩
    let viaName : Option Intent :=
      if pre = "" then none
      else
        match match_sura_name score (normalize_arabic pre) sura_names with
        | some sura =>
          if sura = 0 then none
          else if pyTruthyOpt a2 then some (.range sura s1 (a2.getD 0))
          else some (.range sura s1 a1)
        | none => none
    match viaName with
    | some r => some r
    | none =>
      if pyTruthyOpt a2 then some (.range s1 a1 (a2.getD 0))
      else some (.aya s1 a1)

def toMarker : List Char := "TO ".data

/-- Split on the first occurrence of `pat` (Python `split(pat, 1)`); `none`
when `pat` does not occur. -/
def splitFirstF (pat : List Char) : Nat → List Char → Option (List Char × List Char)
  | 0, _ => none
  | _, [] => none
  | f + 1, l@(c :: cs) =>
    if pat.isPrefixOf l then some ([], l.drop pat.length)
    else
      match splitFirstF pat f cs with
      | some (x, y) => some (c :: x, y)
      | none => none

/-- `_detect_range`: split once on the canonical `"TO "` marker, parse the
left side as a chunk; the right side is a bare number, a chunk with a verse,
or falls back to its first integer.  The bare-number guard is
`part2.isdigit()` followed by `int(part2)` (nlu.py:140-141): when the right
side passes `isdigit` but contains a non-decimal digit such as `²`, `int()`
raises `ValueError`, which this rule propagates (`Except.error`). -/
def detect_range (score : String → String → Nat) (sura_names : List SuraName)
    (normalized : String) : Except PyExc (Option Intent) :=
  match splitFirstF toMarker normalized.data.length normalized.data with
  | none => .ok none
  | some (p1, p2) =>
    let part1 : String := pyStrip ⟨p1⟩
    let part2 : String := pyStrip ⟨p2⟩
    match parse_chunk score sura_names part1 with
    | none => .ok none
    | some info1 =>
      let sura := info1.sura
      let from_aya := pyOrNat info1.aya 1
      if part2.data ≠ [] ∧ part2.data.all isPyDigitStr then
        match pyInt part2.data with
        | some n => .ok (some (.range sura from_aya n))
        | none => .error .valueError
      else
        match parse_chunk score sura_names part2 with
        | some info2 =>
          if pyTruthyOpt info2.aya then .ok (some (.range sura from_aya (info2.aya.getD 0)))
          else
            match digitRuns part2.data with
            | n :: _ => .ok (some (.range sura from_aya n))
            | [] => .ok none
        | none =>
          match digitRuns part2.data with
          | n :: _ => .ok (some (.range sura from_aya n))
          | [] => .ok none

/-- `_detect_single`: a chunk with a (truthy) verse is a single aya,
otherwise a whole surah. -/
def detect_single (score : String → String → Nat) (sura_names : List SuraName)
    (normalized : String) : Option Intent :=
  match parse_chunk score sura_names normalized with
  | none => none
  | some info =>
    if pyTruthyOpt info.aya then some (.aya info.sura (info.aya.getD 0))
    else some (.surah info.sura)

/-- The keyword-normalized copy of the message built at the top of
`parse_message` (double normalization, then the `FROM`/`TO` marker
substitutions). -/
def keywords_of (text : String) : String :=
  let original := pyStrip text
  let normalized := normalize_arabic original
  let k0 := normalize_arabic normalized
  let k1 := subKw fromKws "FROM ".data k0.data
  ⟨subKw toKws "TO ".data k1⟩

/-- `parse_message` of `nlu.py`: the five detection rules in priority
order, falling back to a free-text search intent; the `ValueError` the
range rule can raise propagates to the caller unhandled
(`Except.error`). -/
def parse_message (score : String → String → Nat) (qd : QuranData) (text : String) :
    Except PyExc Intent :=
  let original := pyStrip text
  let keywords := keywords_of text
  let sura_names := build_sura_names qd
  match detect_page keywords with
  | some r => .ok r
  | none =>
    match detect_colon score sura_names original with
    | some r => .ok r
    | none =>
      match detect_range score sura_names keywords with
      | .error e => .error e
      | .ok (some r) => .ok r
      | .ok none =>
        match detect_single score sura_names keywords with
        | some r => .ok r
        | none => .ok (.search original)

/-! ### `audio.py` — file-system model and `gen_mp3`

Disk state is a finite map from paths to file sizes.  The network
downloader and ffmpeg are external: `dl` gives the size a download attempt
leaves at the canonical per-verse path (`none` = attempt failed, no file
left, as `downloader.download_audio` unlinks partial files), and the two
concat outcomes give the size of the artifact ffmpeg writes (`none` =
`ffmpeg.Error`). -/

structure FS where
  files : List (String × Nat)
deriving DecidableEq, Repr

def lookupSize : List (String × Nat) → String → Option Nat
  | [], _ => none
  | e :: t, p => if e.1 = p then some e.2 else lookupSize t p

def removeFiles : List (String × Nat) → String → List (String × Nat)
  | [], _ => []
  | e :: t, p => if e.1 = p then removeFiles t p else e :: removeFiles t p

def FS.size? (fs : FS) (p : String) : Option Nat := lookupSize fs.files p

def FS.present (fs : FS) (p : String) : Bool := (fs.size? p).isSome

def FS.remove (fs : FS) (p : String) : FS := ⟨removeFiles fs.files p⟩

def FS.write (fs : FS) (p : String) (sz : Nat) : FS := ⟨(p, sz) :: (fs.remove p).files⟩

def FS.rename (fs : FS) (src dst : String) : FS :=
  match fs.size? src with
  | some sz => (fs.remove src).write dst sz
  | none => fs

def digitChar (d : Nat) : Char := Char.ofNat (48 + d)

/-- Python `f"{n:03d}"`. -/
def pad3 (n : Nat) : String :=
  if n < 1000 then ⟨[digitChar (n / 100), digitChar (n / 10 % 10), digitChar (n % 10)]⟩
  else toString n

/-- The canonical per-verse clip path
`audio_dir / voice / str(sura) / f"{sura:03d}{aya:03d}.mp3"`. -/
def clipPath (audio_dir voice : String) (sura aya : Nat) : String :=
  audio_dir ++ "/" ++ voice ++ "/" ++ toString sura ++ "/" ++ pad3 sura ++ pad3 aya ++ ".mp3"

/-- Embeds `downloader.download_audio` (returns the canonical path if the
file already exists or a download attempt succeeds, else `None`). -/
def download_audio (dl : Nat → Nat → Option Nat) (audio_dir voice : String)
    (sura aya : Nat) (fs : FS) : FS × Option String :=
  let path := clipPath audio_dir voice sura aya
  if fs.present path then (fs, some path)
  else
    match dl sura aya with
    | some sz => (fs.write path sz, some path)
    | none => (fs, none)

/-- Embeds `int(quran_data["Sura"][sura][1])`: the verse count of a
chapter. -/
def ayaCount (qd : QuranData) (sura : Nat) : Nat :=
  toNatDigits ((qd.sura.getD sura []).getD 1 "").data

/-- The `(sura, aya)` enumeration shared by `gen_mp3` and `gen_timings`:
chapter-major, first and last chapter partial, middle chapters complete. -/
def rangePairs (qd : QuranData) (ss sa es ea : Nat) : List (Nat × Nat) :=
  (List.range' ss (es + 1 - ss)).flatMap fun s =>
    let a0 := if s = ss then sa else 1
    let a1 := if s = es then ea else ayaCount qd s
    (List.range' a0 (a1 + 1 - a0)).map fun a => (s, a)

/-- The per-clip step of `gen_mp3`'s collection loop: delete a zero-length
clip, re-fetch a missing clip, and fail (`none`) if the clip is still
missing or zero-length (deleting a zero-length leftover). -/
def ensureClip (dl : Nat → Nat → Option Nat) (audio_dir voice : String)
    (sura aya : Nat) (fs : FS) : FS × Option String :=
  let path := clipPath audio_dir voice sura aya
  let fs1 := if fs.size? path = some 0 then fs.remove path else fs
  let step := if fs1.present path then (fs1, some path)
              else download_audio dl audio_dir voice sura aya fs1
  match step with
  | (fs2, none) => (fs2, none)
  | (fs2, some p) =>
    match fs2.size? p with
    | none => (fs2, none)
    | some 0 => (fs2.remove p, none)
    | some _ => (fs2, some p)

/-- The collection loop of `gen_mp3`; `none` models the
`FileNotFoundError` raised when a clip cannot be obtained. -/
def collectClips (dl : Nat → Nat → Option Nat) (audio_dir voice : String) :
    List (Nat × Nat) → FS → FS × Option (List String)
  | [], fs => (fs, some [])
  | (s, a) :: rest, fs =>
    match ensureClip dl audio_dir voice s a fs with
    | (fs1, none) => (fs1, none)
    | (fs1, some p) =>
      match collectClips dl audio_dir voice rest fs1 with
      | (fs2, none) => (fs2, none)
      | (fs2, some ps) => (fs2, some (p :: ps))

structure ConcatEnv where
  dl : Nat → Nat → Option Nat
  concatMeta : Option Nat
  concatPlain : Option Nat

/-- The `finally` clause of `gen_mp3`: remove the temp file if present. -/
def tempClean (fs : FS) (temp : String) : FS :=
  if fs.present temp then fs.remove temp else fs

/-- `f"{voice}-{range_id}.mp3"` with the zero-padded range id. -/
def mp3Filename (voice : String) (ss sa es ea : Nat) : String :=
  voice ++ "-" ++ (pad3 ss ++ pad3 sa ++ pad3 es ++ pad3 ea) ++ ".mp3"

def mp3OutputPath (output_dir voice : String) (ss sa es ea : Nat) : String :=
  output_dir ++ "/" ++ mp3Filename voice ss sa es ea

def mp3TempPath (output_dir voice : String) (ss sa es ea : Nat) : String :=
  output_dir ++ "/temp_" ++ mp3Filename voice ss sa es ea

/-- Embeds `gen_mp3` of `audio.py`.  Result: the disk state, the returned
path (`none` = an exception propagated), and whether concatenation work was
performed.  The metadata concat (with its single-file re-tag special case)
and the metadata-less fallback (plain concat or single-file copy) are the
two external concat outcomes of `env`; on success the artifact is written
to the temp path and renamed onto the canonical path. -/
def gen_mp3 (env : ConcatEnv) (audio_dir output_dir : String) (qd : QuranData)
    (voice : String) (start_sura start_aya end_sura end_aya : Nat) (fs : FS) :
    FS × Option String × Bool :=
  let output_path := mp3OutputPath output_dir voice start_sura start_aya end_sura end_aya
  if fs.present output_path then (fs, some output_path, false)
  else
    match collectClips env.dl audio_dir voice
        (rangePairs qd start_sura start_aya end_sura end_aya) fs with
    | (fs1, none) => (fs1, none, false)
    | (fs1, some _) =>
      let temp := mp3TempPath output_dir voice start_sura start_aya end_sura end_aya
      match env.concatMeta with
      | some sz =>
        (tempClean ((fs1.write temp sz).rename temp output_path) temp, some output_path, true)
      | none =>
        match env.concatPlain with
        | some sz =>
          (tempClean ((fs1.write temp sz).rename temp output_path) temp, some output_path, true)
        | none => (tempClean fs1 temp, none, true)

/-! ### `core/audio.py` — `gen_timings` -/

structure Timing where
  sura : Nat
  aya : Nat
  start_ms : Nat
  end_ms : Nat
deriving DecidableEq, Repr

def gen_timings_aux (dur : Nat → Nat → Option Nat) : Nat → List (Nat × Nat) → List Timing
  | _, [] => []
  | t, (s, a) :: rest =>
    ⟨s, a, t, t + (dur s a).getD 2000⟩ :: gen_timings_aux dur (t + (dur s a).getD 2000) rest

/-- Embeds `gen_timings` of `core/audio.py`: a running clock over the
request order, where `dur` models the external `soxi` duration measurement
(`none` = `AudioGenerationError`, replaced by the fixed 2000 ms
fallback). -/
def gen_timings (dur : Nat → Nat → Option Nat) (qd : QuranData)
    (ss sa es ea : Nat) : List Timing :=
  gen_timings_aux dur 0 (rangePairs qd ss sa es ea)

/-! ### `video.py` — output path of `gen_video` -/

/-- Embeds the output-path computation of `gen_video` in `video.py`
(`clean_title = title.replace("/", "-").replace(":", "-")`;
`out_path = output_dir / f"{clean_title}.mp4"`).  The rendering itself is
external (moviepy) and plays no role in the path; the verse list and
starting verse number are carried to record that they do not enter it. -/
def gen_video_path (verses_list : List String) (start_aya : Nat) (title : String)
    (output_dir : String) : String :=
  let clean_title : String :=
    ⟨(title.data.map fun c => if c = '/' then '-' else c).map
      fun c => if c = ':' then '-' else c⟩
  output_dir ++ "/" ++ clean_title ++ ".mp4"

/-! ### Concrete fixtures used to instantiate theorems -/

/-- Concrete corpus fragment: the header row, then chapters 1 and 2 with
their Arabic and English names (start index, verse count, order, rukus,
Arabic name, English name). -/
def qdEx : QuranData :=
  ⟨[[], ["0", "7", "0", "0", "الفاتحة", "Al-Fatiha"],
    ["7", "286", "0", "0", "البقرة", "Baqarah"]]⟩

/-- Concrete scorer recognizing exactly the English name `Baqarah`. -/
def scoreEx : String → String → Nat :=
  fun q c => if q = "Baqarah" ∧ c = "Baqarah" then 100 else 0

/-- The zero scorer: no fuzzy name match ever succeeds. -/
def scoreZero : String → String → Nat := fun _ _ => 0

/-- Concrete duration measurement for the timings theorems (chapter 2
verse 1 measures 1500 ms, everything else fails to measure). -/
def durEx : Nat → Nat → Option Nat :=
  fun s a => if s = 2 ∧ a = 1 then some 1500 else none

/-- Concrete build environment: downloads leave 5-byte files, the metadata
concat writes a 10-byte artifact. -/
def envEx : ConcatEnv := ⟨fun _ _ => some 5, some 10, none⟩

/-- Concrete build environment in which every download attempt fails. -/
def envFail : ConcatEnv := ⟨fun _ _ => none, none, none⟩

end QuranBot

namespace QuranBot

/-! ### Lemmas about the normalizer -/

theorem collapseAux_nil (b : Bool) : collapseAux b [] = [] := rfl

theorem collapseAux_cons_sp_t {a : Char} {t : List Char} (ha : isPySpace a = true) :
    collapseAux true (a :: t) = collapseAux true t := by simp [collapseAux, ha]

theorem collapseAux_cons_sp_f {a : Char} {t : List Char} (ha : isPySpace a = true) :
    collapseAux false (a :: t) = ' ' :: collapseAux true t := by simp [collapseAux, ha]

theorem collapseAux_cons_ns {a : Char} {t : List Char} {b : Bool} (ha : isPySpace a = false) :
    collapseAux b (a :: t) = a :: collapseAux false t := by simp [collapseAux, ha]

theorem normChar_space : normChar ' ' = some ' ' := by decide

theorem normChar_image {c d : Char} (h : normChar c = some d) :
    d = 'ا' ∨ d = 'ي' ∨ d = 'ء' ∨ d = c := by
  unfold normChar at h
  split at h
  · cases h; exact Or.inl rfl
  · split at h
    · cases h; exact Or.inr (Or.inl rfl)
    · split at h
      · cases h; exact Or.inr (Or.inr (Or.inl rfl))
      · split at h
        · cases h
        · split at h
          · cases h
          · split at h
            · cases h
            · cases h; exact Or.inr (Or.inr (Or.inr rfl))

theorem normChar_fix {c d : Char} (h : normChar c = some d) : normChar d = some d := by
  rcases normChar_image h with h' | h' | h' | h'
  · subst h'; decide
  · subst h'; decide
  · subst h'; decide
  · subst h'; exact h

theorem filterMap_normChar_id {l : List Char} (h : ∀ c ∈ l, normChar c = some c) :
    l.filterMap normChar = l := by
  induction l with
  | nil => rfl
  | cons a t ih =>
    have ha : normChar a = some a := h a (List.mem_cons_self a t)
    simp only [List.filterMap_cons, ha]
    exact congrArg (a :: ·) (ih fun c hc => h c (List.mem_cons_of_mem a hc))

theorem mem_collapseAux {c : Char} : ∀ {b : Bool} {l : List Char},
    c ∈ collapseAux b l → c = ' ' ∨ c ∈ l := by
  intro b l
  induction l generalizing b with
  | nil => intro h; simp [collapseAux_nil] at h
  | cons a t ih =>
    intro h
    by_cases ha : isPySpace a
    · cases b with
      | true =>
        rw [collapseAux_cons_sp_t ha] at h
        rcases ih h with h' | h'
        · exact Or.inl h'
        · exact Or.inr (List.mem_cons_of_mem a h')
      | false =>
        rw [collapseAux_cons_sp_f ha] at h
        rcases List.mem_cons.1 h with h' | h'
        · exact Or.inl h'
        · rcases ih h' with h'' | h''
          · exact Or.inl h''
          · exact Or.inr (List.mem_cons_of_mem a h'')
    · rw [collapseAux_cons_ns (by simpa using ha)] at h
      rcases List.mem_cons.1 h with h' | h'
      · exact Or.inr (h' ▸ List.mem_cons_self a t)
      · rcases ih h' with h'' | h''
        · exact Or.inl h''
        · exact Or.inr (List.mem_cons_of_mem a h'')

theorem spaceOK_collapseAux : ∀ {b : Bool} {l : List Char},
    ∀ c ∈ collapseAux b l, isPySpace c = true → c = ' ' := by
  intro b l
  induction l generalizing b with
  | nil => intro c hc; simp [collapseAux_nil] at hc
  | cons a t ih =>
    intro c hc hsp
    by_cases ha : isPySpace a
    · cases b with
      | true =>
        rw [collapseAux_cons_sp_t ha] at hc
        exact ih c hc hsp
      | false =>
        rw [collapseAux_cons_sp_f ha] at hc
        rcases List.mem_cons.1 hc with h | h
        · exact h
        · exact ih c h hsp
    · rw [collapseAux_cons_ns (by simpa using ha)] at hc
      rcases List.mem_cons.1 hc with h | h
      · subst h; exact absurd hsp (by simpa using ha)
      · exact ih c h hsp

theorem chain_collapseAux : ∀ l : List Char,
    noTwoSpaces (collapseAux false l) ∧ noTwoSpaces (collapseAux true l) ∧
      ∀ c ∈ (collapseAux true l).head?, isPySpace c = false := by
  intro l
  induction l with
  | nil =>
    refine ⟨List.chain'_nil, List.chain'_nil, ?_⟩
    intro c hc
    simp [collapseAux_nil] at hc
  | cons a t ih =>
    obtain ⟨ihf, iht, ihh⟩ := ih
    by_cases ha : isPySpace a
    · refine ⟨?_, ?_, ?_⟩
      · rw [collapseAux_cons_sp_f ha]
        refine List.chain'_cons'.2 ⟨?_, iht⟩
        intro y hy hcon
        exact absurd hcon.2 (by simp [ihh y hy])
      · rw [collapseAux_cons_sp_t ha]
        exact iht
      · rw [collapseAux_cons_sp_t ha]
        exact ihh
    · have ha' : isPySpace a = false := by simpa using ha
      refine ⟨?_, ?_, ?_⟩
      · rw [collapseAux_cons_ns ha']
        refine List.chain'_cons'.2 ⟨?_, ihf⟩
        intro y _ hcon
        exact absurd hcon.1 (by simp [ha'])
      · rw [collapseAux_cons_ns ha']
        refine List.chain'_cons'.2 ⟨?_, ihf⟩
        intro y _ hcon
        exact absurd hcon.1 (by simp [ha'])
      · rw [collapseAux_cons_ns ha']
        intro c hc
        cases hc
        exact ha'

theorem collapseAux_true_eq_false {l : List Char}
    (h : ∀ c ∈ l.head?, isPySpace c = false) : collapseAux true l = collapseAux false l := by
  cases l with
  | nil => rfl
  | cons a t =>
    have ha : isPySpace a = false := h a (by simp)
    rw [collapseAux_cons_ns ha, collapseAux_cons_ns ha]

theorem collapseAux_id : ∀ {l : List Char},
    (∀ c ∈ l, isPySpace c = true → c = ' ') → noTwoSpaces l → collapseAux false l = l := by
  intro l
  induction l with
  | nil => intro _ _; rfl
  | cons a t ih =>
    intro h1 h2
    have h2' := List.chain'_cons'.1 h2
    by_cases ha : isPySpace a
    · have haa : a = ' ' := h1 a (List.mem_cons_self a t) ha
      have ht : ∀ c ∈ t.head?, isPySpace c = false := by
        intro c hc
        by_contra hcc
        exact h2'.1 c hc ⟨ha, by simpa using hcc⟩
      rw [collapseAux_cons_sp_f ha, collapseAux_true_eq_false ht,
        ih (fun c hc => h1 c (List.mem_cons_of_mem a hc)) h2'.2, haa]
    · rw [collapseAux_cons_ns (by simpa using ha),
        ih (fun c hc => h1 c (List.mem_cons_of_mem a hc)) h2'.2]

theorem chain'_dropWhile {α : Type _} {R : α → α → Prop} {p : α → Bool} :
    ∀ {l : List α}, l.Chain' R → (l.dropWhile p).Chain' R := by
  intro l
  induction l with
  | nil => intro _; exact List.chain'_nil
  | cons a t ih =>
    intro h
    by_cases ha : p a
    · rw [List.dropWhile_cons_of_pos ha]
      exact ih h.tail
    · rwa [List.dropWhile_cons_of_neg ha]

theorem noTwoSpaces_reverse {l : List Char} (h : noTwoSpaces l) : noTwoSpaces l.reverse := by
  unfold noTwoSpaces at h ⊢
  rw [List.chain'_reverse]
  exact h.imp fun {a b} hab => fun hc => hab ⟨hc.2, hc.1⟩

theorem mem_dropWhile {α : Type _} {p : α → Bool} {c : α} {l : List α}
    (h : c ∈ l.dropWhile p) : c ∈ l :=
  (List.dropWhile_sublist p).mem h

theorem mem_stripL {c : Char} {l : List Char} (h : c ∈ stripL l) : c ∈ l := by
  unfold stripL at h
  rw [List.mem_reverse] at h
  have h1 := mem_dropWhile h
  rw [List.mem_reverse] at h1
  exact mem_dropWhile h1

theorem noTwoSpaces_stripL {l : List Char} (h : noTwoSpaces l) : noTwoSpaces (stripL l) :=
  noTwoSpaces_reverse (chain'_dropWhile (noTwoSpaces_reverse (chain'_dropWhile h)))

theorem head?_dropWhile {α : Type _} {p : α → Bool} :
    ∀ {l : List α} {c : α}, (l.dropWhile p).head? = some c → p c = false := by
  intro l
  induction l with
  | nil => intro c h; simp at h
  | cons a t ih =>
    intro c h
    by_cases ha : p a
    · rw [List.dropWhile_cons_of_pos ha] at h
      exact ih h
    · rw [List.dropWhile_cons_of_neg ha] at h
      cases h
      simpa using ha

theorem dropWhile_dropWhile {α : Type _} {p : α → Bool} (l : List α) :
    (l.dropWhile p).dropWhile p = l.dropWhile p := by
  cases hd : l.dropWhile p with
  | nil => rfl
  | cons c t =>
    have hc : p c = false := head?_dropWhile (by rw [hd]; rfl)
    rw [List.dropWhile_cons_of_neg (by simp [hc])]

theorem dropWhile_append_last {α : Type _} {p : α → Bool} {c : α} (hc : p c = false) :
    ∀ w : List α, ∃ t, (w ++ [c]).dropWhile p = t ++ [c] := by
  intro w
  induction w with
  | nil =>
    refine ⟨[], ?_⟩
    rw [List.nil_append, List.dropWhile_cons_of_neg (by simp [hc])]
  | cons a t ih =>
    by_cases ha : p a
    · obtain ⟨u, hu⟩ := ih
      exact ⟨u, by rw [List.cons_append, List.dropWhile_cons_of_pos ha, hu]⟩
    · exact ⟨a :: t, by rw [List.cons_append, List.dropWhile_cons_of_neg ha]⟩

theorem stripL_stripL (l : List Char) : stripL (stripL l) = stripL l := by
  cases hm : l.dropWhile isPySpace with
  | nil =>
    unfold stripL
    rw [hm]
    simp
  | cons c t =>
    have pc : isPySpace c = false := head?_dropWhile (by rw [hm]; rfl)
    obtain ⟨u, hu⟩ := dropWhile_append_last pc t.reverse
    have hX : stripL l = c :: u.reverse := by
      unfold stripL
      rw [hm, List.reverse_cons, hu]
      simp
    rw [hX]
    unfold stripL
    rw [List.dropWhile_cons_of_neg (by simp [pc]), List.reverse_cons, List.reverse_reverse]
    have h2 : (u ++ [c]).dropWhile isPySpace = u ++ [c] := by
      conv_lhs => rw [← hu]
      rw [dropWhile_dropWhile, hu]
    rw [h2]
    simp

theorem normList_idem (l : List Char) : normList (normList l) = normList l := by
  have hmemfix : ∀ c ∈ normList l, normChar c = some c := by
    intro c hc
    have h1 := mem_stripL hc
    rcases mem_collapseAux h1 with h | h
    · rw [h]; exact normChar_space
    · obtain ⟨a, _, ha2⟩ := List.mem_filterMap.1 h
      exact normChar_fix ha2
  have h1 : (normList l).filterMap normChar = normList l := filterMap_normChar_id hmemfix
  have h2 : collapseAux false (normList l) = normList l := by
    apply collapseAux_id
    · intro c hc hsp
      exact spaceOK_collapseAux c (mem_stripL hc) hsp
    · exact noTwoSpaces_stripL (chain_collapseAux _).1
  show stripL (collapseAux false ((normList l).filterMap normChar)) = normList l
  rw [h1, h2]
  exact stripL_stripL _

theorem count_filterMap_taMarbuta (l : List Char) :
    (l.filterMap normChar).count 'ة' = l.count 'ة' := by
  induction l with
  | nil => rfl
  | cons a t ih =>
    by_cases haa : a = 'ة'
    · subst haa
      simp only [List.filterMap_cons]
      rw [show normChar 'ة' = some 'ة' from by decide]
      simp [ih]
    · cases hna : normChar a with
      | none => simp only [List.filterMap_cons, hna, ih, List.count_cons_of_ne (Ne.symm haa)]
      | some d =>
        have hd : d ≠ 'ة' := by
          intro hdd
          subst hdd
          rcases normChar_image hna with h | h | h | h
          · cases h
          · cases h
          · cases h
          · exact haa h.symm
        simp only [List.filterMap_cons, hna]
        rw [List.count_cons_of_ne (Ne.symm hd), List.count_cons_of_ne (Ne.symm haa), ih]

theorem count_collapseAux {x : Char} (hx : isPySpace x = false) :
    ∀ (b : Bool) (l : List Char), (collapseAux b l).count x = l.count x := by
  intro b l
  induction l generalizing b with
  | nil => rfl
  | cons a t ih =>
    by_cases ha : isPySpace a
    · have hax : x ≠ a := fun h => by rw [h, ha] at hx; cases hx
      have hxsp : x ≠ ' ' := by
        intro h
        rw [h] at hx
        exact absurd hx (by decide)
      cases b with
      | true =>
        rw [collapseAux_cons_sp_t ha, ih, List.count_cons_of_ne hax]
      | false =>
        rw [collapseAux_cons_sp_f ha, List.count_cons_of_ne hxsp, ih,
          List.count_cons_of_ne hax]
    · rw [collapseAux_cons_ns (by simpa using ha)]
      by_cases hax : x = a
      · subst hax
        rw [List.count_cons_self, List.count_cons_self, ih]
      · rw [List.count_cons_of_ne hax, List.count_cons_of_ne hax, ih]

theorem count_dropWhile_space {x : Char} (hx : isPySpace x = false) :
    ∀ l : List Char, (l.dropWhile isPySpace).count x = l.count x := by
  intro l
  induction l with
  | nil => rfl
  | cons a t ih =>
    by_cases ha : isPySpace a
    · have hax : x ≠ a := fun h => by rw [h, ha] at hx; cases hx
      rw [List.dropWhile_cons_of_pos (by simp [ha]), ih, List.count_cons_of_ne hax]
    · rw [List.dropWhile_cons_of_neg ha]

theorem count_stripL {x : Char} (hx : isPySpace x = false) (l : List Char) :
    (stripL l).count x = l.count x := by
  unfold stripL
  rw [List.count_reverse, count_dropWhile_space hx, List.count_reverse,
    count_dropWhile_space hx]

theorem count_normList {x : Char} (hx : isPySpace x = false)
    (hfix : ∀ l : List Char, (l.filterMap normChar).count x = l.count x) (l : List Char) :
    (normList l).count x = l.count x := by
  unfold normList
  rw [count_stripL hx, count_collapseAux hx, hfix]

end QuranBot

namespace QuranBot

/-! ### Claim theorems: the text normalizer (C9, C10) -/

/-- C9: the text normalizer is pure, deterministic and idempotent — for
every string `x`, `normalize(normalize(x)) = normalize(x)` — and the empty
string normalizes to the empty string. -/
theorem normalize_arabic_idempotent :
    (∀ s : String, normalize_arabic (normalize_arabic s) = normalize_arabic s) ∧
      normalize_arabic "" = "" := by
  constructor
  · intro s
    exact congrArg String.mk (normList_idem s.data)
  · decide

/-- C10: Ta Marbuta folding is disabled in the implemented normalizer: for
every string, `normalize_arabic` preserves every occurrence of `ة` (it is
never folded to `ه`); in particular the repository test's example `مدرسة`
keeps its final `ة`. -/
theorem normalize_arabic_preserves_taMarbuta :
    (∀ s : String, (normalize_arabic s).data.count 'ة' = s.data.count 'ة') ∧
      normalize_arabic "مدرسة" = "مدرسة" := by
  constructor
  · intro s
    exact count_normList (by decide) count_filterMap_taMarbuta s.data
  · decide

end QuranBot

namespace QuranBot

/-! ### Lemmas and claim theorems: the resolver (C1–C4) -/

theorem detect_range_error (score : String → String → Nat) (sura_names : List SuraName)
    (s : String) (e : PyExc)
    (h : detect_range score sura_names s = .error e) :
    e = .valueError ∧ ∃ p1 p2, splitFirstF toMarker s.data.length s.data = some (p1, p2) ∧
      (pyStrip ⟨p2⟩).data ≠ [] ∧ (pyStrip ⟨p2⟩).data.all isPyDigitStr = true ∧
      pyInt (pyStrip ⟨p2⟩).data = none := by
  simp only [detect_range] at h
  split at h
  · simp at h
  · rename_i p1 p2 hsplit
    split at h
    · simp at h
    · split at h
      · rename_i hguard
        split at h
        · simp at h
        · rename_i hint
          have h2 : PyExc.valueError = e := by injection h
          exact ⟨h2.symm, p1, p2, hsplit, hguard.1, hguard.2, hint⟩
      · split at h
        · split at h
          · simp at h
          · split at h
            · simp at h
            · simp at h
        · split at h
          · simp at h
          · simp at h

/-- C1 (amended): the resolver either returns exactly one of the five
intent variants or propagates a `ValueError`; any propagated error is a
`ValueError` coming from the range rule, whose right side passed
`str.isdigit()` while containing a non-decimal digit that `int()` rejects;
and when no detection rule matches and no exception occurs, the result is a
search intent whose query is the input stripped of leading and trailing
whitespace (otherwise unmodified). -/
theorem parse_message_total_fallback (score : String → String → Nat)
    (qd : QuranData) (text : String) :
    ((∃ p, parse_message score qd text = .ok (.page p)) ∨
     (∃ s a, parse_message score qd text = .ok (.aya s a)) ∨
     (∃ s f t, parse_message score qd text = .ok (.range s f t)) ∨
     (∃ s, parse_message score qd text = .ok (.surah s)) ∨
     (∃ q, parse_message score qd text = .ok (.search q)) ∨
     parse_message score qd text = .error .valueError) ∧
    (detect_page (keywords_of text) = none →
     detect_colon score (build_sura_names qd) (pyStrip text) = none →
     detect_range score (build_sura_names qd) (keywords_of text) = .ok none →
     detect_single score (build_sura_names qd) (keywords_of text) = none →
     parse_message score qd text = .ok (.search (pyStrip text))) ∧
    (∀ e, parse_message score qd text = .error e →
      e = .valueError ∧
      detect_range score (build_sura_names qd) (keywords_of text) = .error e ∧
      ∃ p1 p2, splitFirstF toMarker (keywords_of text).data.length
          (keywords_of text).data = some (p1, p2) ∧
        (pyStrip ⟨p2⟩).data ≠ [] ∧ (pyStrip ⟨p2⟩).data.all isPyDigitStr = true ∧
        pyInt (pyStrip ⟨p2⟩).data = none) := by
  have hloc : ∀ e, parse_message score qd text = .error e →
      detect_range score (build_sura_names qd) (keywords_of text) = .error e := by
    intro e he
    simp only [parse_message] at he
    split at he
    · simp at he
    · split at he
      · simp at he
      · split at he
        · rename_i e2 heq
          cases he
          exact heq
        · simp at he
        · split at he
          · simp at he
          · simp at he
  refine ⟨?_, ?_, ?_⟩
  · cases h : parse_message score qd text with
    | error e =>
      cases e with
      | valueError => exact Or.inr (Or.inr (Or.inr (Or.inr (Or.inr rfl))))
    | ok r =>
      cases r with
      | page p => exact Or.inl ⟨p, rfl⟩
      | aya s a => exact Or.inr (Or.inl ⟨s, a, rfl⟩)
      | range s f t => exact Or.inr (Or.inr (Or.inl ⟨s, f, t, rfl⟩))
      | surah s => exact Or.inr (Or.inr (Or.inr (Or.inl ⟨s, rfl⟩)))
      | search q => exact Or.inr (Or.inr (Or.inr (Or.inr (Or.inl ⟨q, rfl⟩))))
  · intro h1 h2 h3 h4
    simp only [parse_message, h1, h2, h3, h4]
  · intro e he
    have hdr := hloc e he
    obtain ⟨he1, p1, p2, hrest⟩ := detect_range_error score (build_sura_names qd)
      (keywords_of text) e hdr
    exact ⟨he1, hdr, p1, p2, hrest⟩

/-- C1 witness: the fallback theorem applied at the spec's example input
(which matches no rule under the zero scorer). -/
theorem parse_message_total_fallback_witness :
    parse_message scoreZero qdEx "hello world xyz123notaname" =
      .ok (.search (pyStrip "hello world xyz123notaname")) :=
  (parse_message_total_fallback scoreZero qdEx "hello world xyz123notaname").2.1
    (by decide) (by decide) (by decide) (by decide)

/-- C1 counterexample: the resolver is not total — on `"2 to ²"` the range
rule's right side passes `str.isdigit()` but `int()` rejects the
superscript digit, so a `ValueError` propagates — and on `" hello "` the
fallback query is the stripped `"hello"`, not the original input string
unmodified. -/
theorem parse_message_not_total :
    parse_message scoreZero qdEx "2 to ²" = .error .valueError ∧
    parse_message scoreZero qdEx " hello " = .ok (.search "hello") ∧
    Intent.search "hello" ≠ .search " hello " :=
  ⟨by decide, by decide, by decide⟩

theorem parse_chunk_pure_numbers (score : String → String → Nat)
    (sura_names : List SuraName) (text : String) (n : Nat) (rest : List Nat)
    (hne : text ≠ "")
    (htp : stripL ((stripL (removeKws labelKws text.data)).filter fun c => !isPyDigit c) = [])
    (hnum : digitRuns (stripL (removeKws labelKws text.data)) = n :: rest) :
    parse_chunk score sura_names text =
      if 1 ≤ n ∧ n ≤ 114 then some ⟨n, rest.head?⟩ else none := by
  simp only [parse_chunk, if_neg hne, htp, hnum]
  simp

/-- C2 (amended): in the chunk parser's pure-number path, the extracted
chapter is returned exactly as extracted when it lies in 1..114 and the
parse reports no match at all when it does not (rejection, never clamping)
— for every scorer and name catalog — while the colon-notation rule
performs no such validation: `"500:3"` resolves to a single-verse intent
with chapter 500. -/
theorem chapter_validation :
    (∀ (score : String → String → Nat) (sura_names : List SuraName)
        (text : String) (n : Nat) (rest : List Nat),
      text ≠ "" →
      stripL ((stripL (removeKws labelKws text.data)).filter fun c => !isPyDigit c) = [] →
      digitRuns (stripL (removeKws labelKws text.data)) = n :: rest →
      parse_chunk score sura_names text =
        if 1 ≤ n ∧ n ≤ 114 then some ⟨n, rest.head?⟩ else none) ∧
    parse_message scoreZero qdEx "500:3" = .ok (.aya 500 3) :=
  ⟨parse_chunk_pure_numbers, by decide⟩

/-- C2 witness: the pure-number rule applied to `"500"` — out of range, so
the chunk parser reports no match (not a clamped chunk) — and to `"2 255"`
— in range, returning exactly the extracted numbers — under the zero
scorer and the empty catalog. -/
theorem chapter_validation_witness :
    parse_chunk scoreZero [] "500" =
      (if 1 ≤ 500 ∧ 500 ≤ 114 then some ⟨500, ([] : List Nat).head?⟩ else none) ∧
    parse_chunk scoreZero [] "2 255" =
      (if 1 ≤ 2 ∧ 2 ≤ 114 then some ⟨2, ([255] : List Nat).head?⟩ else none) :=
  ⟨chapter_validation.1 scoreZero [] "500" 500 [] (by decide) (by decide) (by decide),
   chapter_validation.1 scoreZero [] "2 255" 2 [255] (by decide) (by decide) (by decide)⟩

/-- C2 counterexample: the colon rule extracts chapter 500 from `"500:3"`
without rejecting it, contradicting "rejected at the point of extraction in
every resolution path". -/
theorem colon_chapter_unvalidated :
    parse_message scoreZero qdEx "500:3" = .ok (.aya 500 3) ∧ ¬(500 ≤ 114) :=
  ⟨by decide, by decide⟩

/-- C3: on `"2 3 to 4 5"`, whose two sides resolve to chapters 2 and 4, the
range rule returns a same-chapter range built from the left side's chapter
(dropping chapter 4 entirely); no cross-chapter variant exists in the
resolver's output type, although the repository's own test suite
(`verify_nlu.py`) expects a `range_cross` intent for such inputs. -/
theorem range_rule_uses_left_chapter :
    parse_message scoreZero qdEx "2 3 to 4 5" = .ok (.range 2 3 5) := by decide

theorem detect_colon_name_override (score : String → String → Nat)
    (sura_names : List SuraName) (original : String) (s1 a1 : Nat) (a2 : Option Nat)
    (i sura : Nat)
    (hfind : findColonF original.data.length 0 original.data = some (s1, a1, a2, i))
    (hpre : pyStrip ⟨original.data.take i⟩ ≠ "")
    (hname : match_sura_name score (normalize_arabic (pyStrip ⟨original.data.take i⟩))
      sura_names = some sura)
    (hsz : sura ≠ 0) :
    detect_colon score sura_names original =
      some (.range sura s1 (if pyTruthyOpt a2 then a2.getD 0 else a1)) := by
  by_cases ht : pyTruthyOpt a2 = true
  · simp only [detect_colon, hfind, if_neg hpre, hname, if_neg hsz, ht, if_true]
  · simp only [detect_colon, hfind, if_neg hpre, hname, if_neg hsz, ht,
      Bool.false_eq_true, if_false]

/-- C4: colon notation resolves as specified: whenever the text before the
numeric match resolves as a surah name, that name's chapter overrides the
numeric chapter and the numeric "chapter" value becomes the starting verse;
concretely, `"2:255"` is a single verse, `"2:1-5"` is a verse range, and
`"Baqarah 2:5"` resolves to chapter 2 (Baqarah), verses 2..5. -/
theorem colon_resolution :
    (∀ (score : String → String → Nat) (sura_names : List SuraName) (original : String)
        (s1 a1 : Nat) (a2 : Option Nat) (i sura : Nat),
      findColonF original.data.length 0 original.data = some (s1, a1, a2, i) →
      pyStrip ⟨original.data.take i⟩ ≠ "" →
      match_sura_name score (normalize_arabic (pyStrip ⟨original.data.take i⟩))
        sura_names = some sura →
      sura ≠ 0 →
      detect_colon score sura_names original =
        some (.range sura s1 (if pyTruthyOpt a2 then a2.getD 0 else a1))) ∧
    parse_message scoreEx qdEx "2:255" = .ok (.aya 2 255) ∧
    parse_message scoreEx qdEx "2:1-5" = .ok (.range 2 1 5) ∧
    parse_message scoreEx qdEx "Baqarah 2:5" = .ok (.range 2 2 5) :=
  ⟨detect_colon_name_override, by decide, by decide, by decide⟩

/-- C4 witness: the override rule applied to `"Baqarah 2:5"` (the numeric
match starts at index 8, the prefix resolves to chapter 2). -/
theorem colon_resolution_witness :
    detect_colon scoreEx (build_sura_names qdEx) "Baqarah 2:5" =
      some (.range 2 2 (if pyTruthyOpt none then (none : Option Nat).getD 0 else 5)) :=
  colon_resolution.1 scoreEx (build_sura_names qdEx) "Baqarah 2:5" 2 5 none 8 2
    (by decide) (by decide) (by decide) (by decide)

end QuranBot

namespace QuranBot

/-! ### Lemmas about the file-system model -/

theorem lookupSize_removeFiles_ne {q p : String} (hqp : q ≠ p) :
    ∀ L : List (String × Nat), lookupSize (removeFiles L p) q = lookupSize L q := by
  intro L
  induction L with
  | nil => rfl
  | cons a t ih =>
    by_cases h2 : a.1 = p
    · have h1 : a.1 ≠ q := by rw [h2]; exact fun hh => hqp hh.symm
      rw [show removeFiles (a :: t) p = removeFiles t p from by simp [removeFiles, h2], ih,
        show lookupSize (a :: t) q = lookupSize t q from by simp [lookupSize, h1]]
    · rw [show removeFiles (a :: t) p = a :: removeFiles t p from by simp [removeFiles, h2]]
      by_cases h1 : a.1 = q
      · rw [show lookupSize (a :: removeFiles t p) q = some a.2 from by simp [lookupSize, h1],
          show lookupSize (a :: t) q = some a.2 from by simp [lookupSize, h1]]
      · rw [show lookupSize (a :: removeFiles t p) q = lookupSize (removeFiles t p) q from by
            simp [lookupSize, h1],
          ih, show lookupSize (a :: t) q = lookupSize t q from by simp [lookupSize, h1]]

theorem lookupSize_removeFiles_self (p : String) :
    ∀ L : List (String × Nat), lookupSize (removeFiles L p) p = none := by
  intro L
  induction L with
  | nil => rfl
  | cons a t ih =>
    by_cases h2 : a.1 = p
    · rw [show removeFiles (a :: t) p = removeFiles t p from by simp [removeFiles, h2], ih]
    · rw [show removeFiles (a :: t) p = a :: removeFiles t p from by simp [removeFiles, h2],
        show lookupSize (a :: removeFiles t p) p = lookupSize (removeFiles t p) p from by
          simp [lookupSize, h2],
        ih]

theorem FS.size?_remove_ne (fs : FS) {q p : String} (h : q ≠ p) :
    (fs.remove p).size? q = fs.size? q :=
  lookupSize_removeFiles_ne h fs.files

theorem FS.size?_remove_self (fs : FS) (p : String) :
    (fs.remove p).size? p = none :=
  lookupSize_removeFiles_self p fs.files

theorem FS.size?_write_self (fs : FS) (p : String) (sz : Nat) :
    (fs.write p sz).size? p = some sz := by
  simp [FS.size?, FS.write, lookupSize]

theorem FS.size?_write_ne (fs : FS) {q p : String} (h : q ≠ p) (sz : Nat) :
    (fs.write p sz).size? q = fs.size? q := by
  show lookupSize ((p, sz) :: (fs.remove p).files) q = fs.size? q
  rw [show lookupSize ((p, sz) :: (fs.remove p).files) q =
      lookupSize (fs.remove p).files q from by
    simp only [lookupSize]
    rw [if_neg (fun hh => h (Eq.symm hh))]]
  exact FS.size?_remove_ne fs h

theorem FS.present_write_self (fs : FS) (p : String) (sz : Nat) :
    (fs.write p sz).present p = true := by
  simp [FS.present, FS.size?_write_self]

theorem FS.present_write_ne (fs : FS) {q p : String} (h : q ≠ p) (sz : Nat) :
    (fs.write p sz).present q = fs.present q := by
  simp [FS.present, FS.size?_write_ne fs h]

theorem FS.present_remove_self (fs : FS) (p : String) :
    (fs.remove p).present p = false := by
  simp [FS.present, FS.size?_remove_self]

theorem FS.present_remove_ne (fs : FS) {q p : String} (h : q ≠ p) :
    (fs.remove p).present q = fs.present q := by
  simp [FS.present, FS.size?_remove_ne fs h]

theorem tempClean_present_self (fs : FS) (t : String) :
    (tempClean fs t).present t = false := by
  unfold tempClean
  split
  · exact FS.present_remove_self fs t
  · rename_i h
    simpa using h

theorem tempClean_present_other (fs : FS) {q t : String} (h : q ≠ t) :
    (tempClean fs t).present q = fs.present q := by
  unfold tempClean
  split
  · exact FS.present_remove_ne fs h
  · rfl

theorem mp3TempPath_ne_outputPath (output_dir voice : String) (ss sa es ea : Nat) :
    mp3TempPath output_dir voice ss sa es ea ≠ mp3OutputPath output_dir voice ss sa es ea := by
  intro h
  have hlen := congrArg String.length h
  have h6 : ("/temp_" : String).length = 6 := rfl
  have h1 : ("/" : String).length = 1 := rfl
  simp only [mp3TempPath, mp3OutputPath, String.length_append, h6, h1] at hlen
  omega

end QuranBot

namespace QuranBot

/-! ### Claim theorems: the audio build (C5, C6) -/

/-- C5: the audio build's output key is deterministic — the zero-padded
`(chapter_start, verse_start, chapter_end, verse_end)` tuple concatenated
with the voice identifier — and the build is idempotent: a successful call
leaves the artifact at that canonical path, and an immediately repeated
call with identical arguments returns the same path, leaves the disk
unchanged, and performs no concatenation work. -/
theorem gen_mp3_idempotent (env : ConcatEnv) (audio_dir output_dir : String)
    (qd : QuranData) (voice : String) (ss sa es ea : Nat) (fs fs' : FS)
    (p : String) (w : Bool)
    (h : gen_mp3 env audio_dir output_dir qd voice ss sa es ea fs = (fs', some p, w)) :
    p = output_dir ++ "/" ++ (voice ++ "-" ++
        (pad3 ss ++ pad3 sa ++ pad3 es ++ pad3 ea) ++ ".mp3") ∧
    fs'.present (mp3OutputPath output_dir voice ss sa es ea) = true ∧
    gen_mp3 env audio_dir output_dir qd voice ss sa es ea fs' = (fs', some p, false) := by
  have hne := mp3TempPath_ne_outputPath output_dir voice ss sa es ea
  simp only [gen_mp3] at h ⊢
  by_cases hp : fs.present (mp3OutputPath output_dir voice ss sa es ea) = true
  · rw [if_pos hp] at h
    simp only [Prod.mk.injEq, Option.some.injEq] at h
    obtain ⟨rfl, rfl, rfl⟩ := h
    refine ⟨rfl, hp, ?_⟩
    rw [if_pos hp]
  · rw [if_neg hp] at h
    split at h
    · simp at h
    · rename_i fs1 files _
      split at h
      · rename_i sz _
        simp only [Prod.mk.injEq, Option.some.injEq] at h
        obtain ⟨hfs, rfl, rfl⟩ := h
        rw [show (fs1.write (mp3TempPath output_dir voice ss sa es ea) sz).rename
              (mp3TempPath output_dir voice ss sa es ea)
              (mp3OutputPath output_dir voice ss sa es ea) =
            ((fs1.write (mp3TempPath output_dir voice ss sa es ea) sz).remove
              (mp3TempPath output_dir voice ss sa es ea)).write
              (mp3OutputPath output_dir voice ss sa es ea) sz from by
          simp only [FS.rename, FS.size?_write_self]] at hfs
        have hpt : (((fs1.write (mp3TempPath output_dir voice ss sa es ea) sz).remove
            (mp3TempPath output_dir voice ss sa es ea)).write
            (mp3OutputPath output_dir voice ss sa es ea) sz).present
            (mp3TempPath output_dir voice ss sa es ea) = false := by
          rw [FS.present_write_ne _ hne, FS.present_remove_self]
        rw [show tempClean (((fs1.write (mp3TempPath output_dir voice ss sa es ea) sz).remove
              (mp3TempPath output_dir voice ss sa es ea)).write
              (mp3OutputPath output_dir voice ss sa es ea) sz)
              (mp3TempPath output_dir voice ss sa es ea) =
            ((fs1.write (mp3TempPath output_dir voice ss sa es ea) sz).remove
              (mp3TempPath output_dir voice ss sa es ea)).write
              (mp3OutputPath output_dir voice ss sa es ea) sz from by
          unfold tempClean
          rw [hpt]
          simp] at hfs
        subst hfs
        have hpo := FS.present_write_self
          ((fs1.write (mp3TempPath output_dir voice ss sa es ea) sz).remove
            (mp3TempPath output_dir voice ss sa es ea))
          (mp3OutputPath output_dir voice ss sa es ea) sz
        refine ⟨rfl, hpo, ?_⟩
        rw [if_pos hpo]
      · split at h
        · rename_i sz _
          simp only [Prod.mk.injEq, Option.some.injEq] at h
          obtain ⟨hfs, rfl, rfl⟩ := h
          rw [show (fs1.write (mp3TempPath output_dir voice ss sa es ea) sz).rename
                (mp3TempPath output_dir voice ss sa es ea)
                (mp3OutputPath output_dir voice ss sa es ea) =
              ((fs1.write (mp3TempPath output_dir voice ss sa es ea) sz).remove
                (mp3TempPath output_dir voice ss sa es ea)).write
                (mp3OutputPath output_dir voice ss sa es ea) sz from by
            simp only [FS.rename, FS.size?_write_self]] at hfs
          have hpt : (((fs1.write (mp3TempPath output_dir voice ss sa es ea) sz).remove
              (mp3TempPath output_dir voice ss sa es ea)).write
              (mp3OutputPath output_dir voice ss sa es ea) sz).present
              (mp3TempPath output_dir voice ss sa es ea) = false := by
            rw [FS.present_write_ne _ hne, FS.present_remove_self]
          rw [show tempClean (((fs1.write (mp3TempPath output_dir voice ss sa es ea) sz).remove
                (mp3TempPath output_dir voice ss sa es ea)).write
                (mp3OutputPath output_dir voice ss sa es ea) sz)
                (mp3TempPath output_dir voice ss sa es ea) =
              ((fs1.write (mp3TempPath output_dir voice ss sa es ea) sz).remove
                (mp3TempPath output_dir voice ss sa es ea)).write
                (mp3OutputPath output_dir voice ss sa es ea) sz from by
            unfold tempClean
            rw [hpt]
            simp] at hfs
          subst hfs
          have hpo := FS.present_write_self
            ((fs1.write (mp3TempPath output_dir voice ss sa es ea) sz).remove
              (mp3TempPath output_dir voice ss sa es ea))
            (mp3OutputPath output_dir voice ss sa es ea) sz
          refine ⟨rfl, hpo, ?_⟩
          rw [if_pos hpo]
        · simp at h

end QuranBot


namespace QuranBot

/-! ### Lemmas about clip collection and build failure -/

theorem ensureClip_size?_other (dl : Nat → Nat → Option Nat) (audio_dir voice : String)
    (s a : Nat) (fs : FS) {q : String} (hq : clipPath audio_dir voice s a ≠ q) :
    ((ensureClip dl audio_dir voice s a fs).1).size? q = fs.size? q := by
  have hq' : q ≠ clipPath audio_dir voice s a := Ne.symm hq
  by_cases h0 : fs.size? (clipPath audio_dir voice s a) = some 0
  · have hp1 : (fs.remove (clipPath audio_dir voice s a)).present
        (clipPath audio_dir voice s a) = false := FS.present_remove_self fs _
    cases hdl : dl s a with
    | none =>
      simp only [ensureClip, download_audio, if_pos h0, hp1, Bool.false_eq_true, if_false, hdl]
      exact FS.size?_remove_ne fs hq'
    | some sz =>
      have hw : ((fs.remove (clipPath audio_dir voice s a)).write
          (clipPath audio_dir voice s a) sz).size? (clipPath audio_dir voice s a) = some sz :=
        FS.size?_write_self _ _ _
      cases sz with
      | zero =>
        simp only [ensureClip, download_audio, if_pos h0, hp1, Bool.false_eq_true, if_false,
          hdl, hw]
        rw [FS.size?_remove_ne _ hq', FS.size?_write_ne _ hq', FS.size?_remove_ne _ hq']
      | succ k =>
        simp only [ensureClip, download_audio, if_pos h0, hp1, Bool.false_eq_true, if_false,
          hdl, hw]
        rw [FS.size?_write_ne _ hq', FS.size?_remove_ne _ hq']
  · by_cases hb : fs.present (clipPath audio_dir voice s a) = true
    · have hsz : ∃ k, fs.size? (clipPath audio_dir voice s a) = some (k + 1) := by
        unfold FS.present at hb
        cases hx : fs.size? (clipPath audio_dir voice s a) with
        | none => rw [hx] at hb; cases hb
        | some k =>
          cases k with
          | zero => exact absurd hx h0
          | succ m => exact ⟨m, rfl⟩
      obtain ⟨k, hk⟩ := hsz
      simp only [ensureClip, download_audio, if_neg h0, if_pos hb]
      rw [hk]
      rfl
    · cases hdl : dl s a with
      | none =>
        simp only [ensureClip, download_audio, if_neg h0, hb, Bool.false_eq_true, if_false, hdl]
      | some sz =>
        have hw : (fs.write (clipPath audio_dir voice s a) sz).size?
            (clipPath audio_dir voice s a) = some sz := FS.size?_write_self _ _ _
        cases sz with
        | zero =>
          simp only [ensureClip, download_audio, if_neg h0, hb, Bool.false_eq_true, if_false,
            hdl, hw]
          rw [FS.size?_remove_ne _ hq', FS.size?_write_ne _ hq']
        | succ k =>
          simp only [ensureClip, download_audio, if_neg h0, hb, Bool.false_eq_true, if_false,
            hdl, hw]
          rw [FS.size?_write_ne _ hq']

theorem collectClips_size?_other (dl : Nat → Nat → Option Nat) (audio_dir voice : String)
    {q : String} :
    ∀ (pairs : List (Nat × Nat)) (fs : FS),
      (∀ pr ∈ pairs, clipPath audio_dir voice pr.1 pr.2 ≠ q) →
      ((collectClips dl audio_dir voice pairs fs).1).size? q = fs.size? q := by
  intro pairs
  induction pairs with
  | nil => intro fs _; rfl
  | cons pr rest ih =>
    intro fs hq
    obtain ⟨s, a⟩ := pr
    have h1 := ensureClip_size?_other dl audio_dir voice s a fs
      (hq (s, a) (List.mem_cons_self _ _))
    simp only [collectClips]
    cases he : ensureClip dl audio_dir voice s a fs with
    | mk fs1 po =>
      rw [he] at h1
      cases po with
      | none => simpa using h1
      | some p =>
        have h2 := ih fs1 (fun x hx => hq x (List.mem_cons_of_mem _ hx))
        cases hc : collectClips dl audio_dir voice rest fs1 with
        | mk fs2 r =>
          rw [hc] at h2
          simp only [hc]
          cases r with
          | none => simpa using h2.trans h1
          | some ps => simpa using h2.trans h1

theorem ensureClip_refetch_ok (dl : Nat → Nat → Option Nat) (audio_dir voice : String)
    (s a : Nat) (fs : FS) (sz : Nat)
    (h0 : fs.size? (clipPath audio_dir voice s a) = some 0)
    (hdl : dl s a = some (sz + 1)) :
    ensureClip dl audio_dir voice s a fs =
      ((fs.remove (clipPath audio_dir voice s a)).write (clipPath audio_dir voice s a) (sz + 1),
        some (clipPath audio_dir voice s a)) := by
  have hp1 : (fs.remove (clipPath audio_dir voice s a)).present
      (clipPath audio_dir voice s a) = false := FS.present_remove_self fs _
  simp only [ensureClip, download_audio, if_pos h0, hp1, Bool.false_eq_true, if_false, hdl,
    FS.size?_write_self]

theorem ensureClip_refetch_fail (dl : Nat → Nat → Option Nat) (audio_dir voice : String)
    (s a : Nat) (fs : FS)
    (h0 : fs.size? (clipPath audio_dir voice s a) = some 0)
    (hdl : dl s a = none) :
    ensureClip dl audio_dir voice s a fs = (fs.remove (clipPath audio_dir voice s a), none) := by
  have hp1 : (fs.remove (clipPath audio_dir voice s a)).present
      (clipPath audio_dir voice s a) = false := FS.present_remove_self fs _
  simp only [ensureClip, download_audio, if_pos h0, hp1, Bool.false_eq_true, if_false, hdl]

theorem gen_mp3_failure_atomic (env : ConcatEnv) (audio_dir output_dir : String)
    (qd : QuranData) (voice : String) (ss sa es ea : Nat) (fs fs' : FS) (w : Bool)
    (hout : fs.present (mp3OutputPath output_dir voice ss sa es ea) = false)
    (htmp : fs.present (mp3TempPath output_dir voice ss sa es ea) = false)
    (hcl : ∀ pr ∈ rangePairs qd ss sa es ea,
      clipPath audio_dir voice pr.1 pr.2 ≠ mp3OutputPath output_dir voice ss sa es ea ∧
      clipPath audio_dir voice pr.1 pr.2 ≠ mp3TempPath output_dir voice ss sa es ea)
    (h : gen_mp3 env audio_dir output_dir qd voice ss sa es ea fs = (fs', none, w)) :
    fs'.present (mp3OutputPath output_dir voice ss sa es ea) = false ∧
    fs'.present (mp3TempPath output_dir voice ss sa es ea) = false := by
  have hkeep : ∀ qq : String,
      (∀ pr ∈ rangePairs qd ss sa es ea, clipPath audio_dir voice pr.1 pr.2 ≠ qq) →
      ((collectClips env.dl audio_dir voice (rangePairs qd ss sa es ea) fs).1).present qq =
        fs.present qq := by
    intro qq hqq
    unfold FS.present
    rw [collectClips_size?_other env.dl audio_dir voice _ fs hqq]
  simp only [gen_mp3] at h
  rw [if_neg (by simp [hout])] at h
  split at h
  · rename_i fs1 hcol
    simp only [Prod.mk.injEq] at h
    obtain ⟨hfs1, -, -⟩ := h
    have hfst : fs1 = (collectClips env.dl audio_dir voice
        (rangePairs qd ss sa es ea) fs).1 := by rw [hcol]
    subst hfs1
    constructor
    · rw [hfst, hkeep _ (fun pr hpr => (hcl pr hpr).1)]
      exact hout
    · rw [hfst, hkeep _ (fun pr hpr => (hcl pr hpr).2)]
      exact htmp
  · rename_i fs1 files hcol
    split at h
    · simp at h
    · split at h
      · simp at h
      · simp only [Prod.mk.injEq] at h
        obtain ⟨hfs1, -, -⟩ := h
        have hfst : fs1 = (collectClips env.dl audio_dir voice
            (rangePairs qd ss sa es ea) fs).1 := by rw [hcol]
        subst hfs1
        constructor
        · rw [tempClean_present_other _
            (Ne.symm (mp3TempPath_ne_outputPath output_dir voice ss sa es ea)),
            hfst, hkeep _ (fun pr hpr => (hcl pr hpr).1)]
          exact hout
        · exact tempClean_present_self _ _

end QuranBot

namespace QuranBot

/-- C5 witness: the idempotence theorem applied to a successful build of
chapter 1, verses 1–2 from an empty disk. -/
theorem gen_mp3_idempotent_witness :
    "o/v-001001001002.mp3" = "o" ++ "/" ++ ("v" ++ "-" ++
        (pad3 1 ++ pad3 1 ++ pad3 1 ++ pad3 2) ++ ".mp3") ∧
    (FS.mk [("o/v-001001001002.mp3", 10), ("a/v/1/001002.mp3", 5),
        ("a/v/1/001001.mp3", 5)]).present (mp3OutputPath "o" "v" 1 1 1 2) = true ∧
    gen_mp3 envEx "a" "o" qdEx "v" 1 1 1 2
        (FS.mk [("o/v-001001001002.mp3", 10), ("a/v/1/001002.mp3", 5),
          ("a/v/1/001001.mp3", 5)]) =
      (FS.mk [("o/v-001001001002.mp3", 10), ("a/v/1/001002.mp3", 5),
          ("a/v/1/001001.mp3", 5)],
        some "o/v-001001001002.mp3", false) :=
  gen_mp3_idempotent envEx "a" "o" qdEx "v" 1 1 1 2 ⟨[]⟩ _ _ true (by decide)

/-- C6: audio build failure is atomic.  A per-verse clip present with zero
length is deleted and re-fetched — a successful re-fetch replaces it, a
failed re-fetch aborts the step with the corrupt file removed — and a build
that fails leaves no file at the canonical output path and no temp file,
provided the clip paths of the requested range are distinct from the
output/temp paths and no file was at those paths beforehand. -/
theorem gen_mp3_missing_audio_atomic :
    (∀ (dl : Nat → Nat → Option Nat) (audio_dir voice : String) (s a : Nat) (fs : FS)
        (sz : Nat), fs.size? (clipPath audio_dir voice s a) = some 0 →
      dl s a = some (sz + 1) →
      ensureClip dl audio_dir voice s a fs =
        ((fs.remove (clipPath audio_dir voice s a)).write (clipPath audio_dir voice s a)
            (sz + 1), some (clipPath audio_dir voice s a))) ∧
    (∀ (dl : Nat → Nat → Option Nat) (audio_dir voice : String) (s a : Nat) (fs : FS),
      fs.size? (clipPath audio_dir voice s a) = some 0 → dl s a = none →
      ensureClip dl audio_dir voice s a fs =
        (fs.remove (clipPath audio_dir voice s a), none)) ∧
    (∀ (env : ConcatEnv) (audio_dir output_dir : String) (qd : QuranData) (voice : String)
        (ss sa es ea : Nat) (fs fs' : FS) (w : Bool),
      fs.present (mp3OutputPath output_dir voice ss sa es ea) = false →
      fs.present (mp3TempPath output_dir voice ss sa es ea) = false →
      (∀ pr ∈ rangePairs qd ss sa es ea,
        clipPath audio_dir voice pr.1 pr.2 ≠ mp3OutputPath output_dir voice ss sa es ea ∧
        clipPath audio_dir voice pr.1 pr.2 ≠ mp3TempPath output_dir voice ss sa es ea) →
      gen_mp3 env audio_dir output_dir qd voice ss sa es ea fs = (fs', none, w) →
      fs'.present (mp3OutputPath output_dir voice ss sa es ea) = false ∧
      fs'.present (mp3TempPath output_dir voice ss sa es ea) = false) :=
  ⟨ensureClip_refetch_ok, ensureClip_refetch_fail, gen_mp3_failure_atomic⟩

/-- C6 witness: the atomicity theorem applied to a build of chapter 1,
verses 1–2 in which every download fails. -/
theorem gen_mp3_missing_audio_atomic_witness :
    (FS.mk []).present (mp3OutputPath "o" "v" 1 1 1 2) = false ∧
    (FS.mk []).present (mp3TempPath "o" "v" 1 1 1 2) = false :=
  gen_mp3_missing_audio_atomic.2.2 envFail "a" "o" qdEx "v" 1 1 1 2 ⟨[]⟩ ⟨[]⟩ false
    (by decide) (by decide) (by decide) (by decide)

end QuranBot


namespace QuranBot

/-! ### Lemmas about the timings builder -/

theorem gen_timings_aux_pairs (dur : Nat → Nat → Option Nat) :
    ∀ (pairs : List (Nat × Nat)) (t : Nat),
      (gen_timings_aux dur t pairs).map (fun tm => (tm.sura, tm.aya)) = pairs := by
  intro pairs
  induction pairs with
  | nil => intro t; rfl
  | cons pr rest ih =>
    intro t
    obtain ⟨s, a⟩ := pr
    simp only [gen_timings_aux, List.map_cons, ih]

theorem gen_timings_aux_head_start (dur : Nat → Nat → Option Nat) :
    ∀ (pairs : List (Nat × Nat)) (t : Nat) (tm : Timing),
      tm ∈ (gen_timings_aux dur t pairs).head? → tm.start_ms = t := by
  intro pairs t tm h
  cases pairs with
  | nil => simp [gen_timings_aux] at h
  | cons pr rest =>
    obtain ⟨s, a⟩ := pr
    simp only [gen_timings_aux, List.head?_cons, Option.mem_def, Option.some.injEq] at h
    rw [← h]

theorem gen_timings_aux_clock (dur : Nat → Nat → Option Nat) :
    ∀ (pairs : List (Nat × Nat)) (t : Nat),
      (gen_timings_aux dur t pairs).Chain' (fun u v => u.end_ms = v.start_ms) := by
  intro pairs
  induction pairs with
  | nil => intro t; exact List.chain'_nil
  | cons pr rest ih =>
    intro t
    obtain ⟨s, a⟩ := pr
    simp only [gen_timings_aux]
    refine List.chain'_cons'.2 ⟨?_, ih _⟩
    intro y hy
    exact (gen_timings_aux_head_start dur rest (t + (dur s a).getD 2000) y hy).symm

theorem gen_timings_aux_duration (dur : Nat → Nat → Option Nat) :
    ∀ (pairs : List (Nat × Nat)) (t : Nat) (tm : Timing),
      tm ∈ gen_timings_aux dur t pairs →
      tm.end_ms = tm.start_ms + (dur tm.sura tm.aya).getD 2000 := by
  intro pairs
  induction pairs with
  | nil => intro t tm h; simp [gen_timings_aux] at h
  | cons pr rest ih =>
    intro t tm h
    obtain ⟨s, a⟩ := pr
    simp only [gen_timings_aux, List.mem_cons] at h
    rcases h with h | h
    · subst h; rfl
    · exact ih _ tm h

theorem chain'_lt_range' : ∀ (k a : Nat), (List.range' a k).Chain' (· < ·) := by
  intro k
  induction k with
  | zero => intro a; exact List.chain'_nil
  | succ n ih =>
    intro a
    rw [List.range'_succ]
    refine List.chain'_cons'.2 ⟨?_, ih (a + 1)⟩
    intro y hy
    cases n with
    | zero => simp at hy
    | succ m =>
      rw [List.range'_succ] at hy
      simp only [List.head?_cons, Option.mem_def, Option.some.injEq] at hy
      omega

theorem chain'_group (s a0 k : Nat) :
    ((List.range' a0 k).map fun a => (s, a)).Chain'
      (fun u v : Nat × Nat => u.1 < v.1 ∨ (u.1 = v.1 ∧ u.2 < v.2)) := by
  rw [List.chain'_map]
  exact (chain'_lt_range' k a0).imp (fun a b h => Or.inr ⟨rfl, h⟩)

theorem chain'_flatMap_pairs (g : Nat → List (Nat × Nat))
    (hfst : ∀ s x, x ∈ g s → x.1 = s)
    (hin : ∀ s, (g s).Chain' (fun u v : Nat × Nat => u.1 < v.1 ∨ (u.1 = v.1 ∧ u.2 < v.2))) :
    ∀ (n s0 : Nat), ((List.range' s0 n).flatMap g).Chain'
      (fun u v : Nat × Nat => u.1 < v.1 ∨ (u.1 = v.1 ∧ u.2 < v.2)) := by
  intro n
  induction n with
  | zero => intro s0; exact List.chain'_nil
  | succ m ih =>
    intro s0
    rw [List.range'_succ, List.flatMap_cons]
    apply List.chain'_append.2
    refine ⟨hin s0, ih (s0 + 1), ?_⟩
    intro x hx y hy
    have hx1 : x.1 = s0 := hfst s0 x (List.mem_of_mem_getLast? hx)
    obtain ⟨s', hs', hys'⟩ := List.mem_flatMap.1 (List.mem_of_mem_head? hy)
    have hy1 : y.1 = s' := hfst s' y hys'
    obtain ⟨i, hi, hm⟩ := List.mem_range'.1 hs'
    left
    rw [hx1, hy1, hm]
    omega

theorem rangePairs_chain' (qd : QuranData) (ss sa es ea : Nat) :
    (rangePairs qd ss sa es ea).Chain'
      (fun u v : Nat × Nat => u.1 < v.1 ∨ (u.1 = v.1 ∧ u.2 < v.2)) := by
  unfold rangePairs
  refine chain'_flatMap_pairs _ ?_ ?_ (es + 1 - ss) ss
  · intro s x hx
    obtain ⟨a, -, rfl⟩ := List.mem_map.1 hx
    rfl
  · intro s
    exact chain'_group s _ _

end QuranBot

namespace QuranBot

/-- C7: the timings builder produces a running clock: the entries follow
the request-order `(chapter, verse)` enumeration in strictly ascending
lexicographic order, the first entry starts at 0, every entry's duration is
the measured clip duration with the fixed 2000 ms fallback when measurement
fails, and every consecutive pair satisfies
`timings[i+1].start_ms = timings[i].end_ms` exactly. -/
theorem gen_timings_running_clock (dur : Nat → Nat → Option Nat) (qd : QuranData)
    (ss sa es ea : Nat) :
    ((gen_timings dur qd ss sa es ea).map fun tm => (tm.sura, tm.aya)) =
        rangePairs qd ss sa es ea ∧
    (gen_timings dur qd ss sa es ea).Chain'
      (fun u v => u.sura < v.sura ∨ (u.sura = v.sura ∧ u.aya < v.aya)) ∧
    (gen_timings dur qd ss sa es ea).Chain' (fun u v => u.end_ms = v.start_ms) ∧
    (∀ tm ∈ (gen_timings dur qd ss sa es ea).head?, tm.start_ms = 0) ∧
    (∀ tm ∈ gen_timings dur qd ss sa es ea,
      tm.end_ms = tm.start_ms + (dur tm.sura tm.aya).getD 2000) := by
  refine ⟨gen_timings_aux_pairs dur _ 0, ?_, gen_timings_aux_clock dur _ 0,
    fun tm h => gen_timings_aux_head_start dur _ 0 tm h,
    fun tm h => gen_timings_aux_duration dur _ 0 tm h⟩
  have hch := rangePairs_chain' qd ss sa es ea
  rw [← gen_timings_aux_pairs dur (rangePairs qd ss sa es ea) 0] at hch
  rw [List.chain'_map] at hch
  exact hch

/-- C7 witness: the running-clock theorem applied to the range 1:6–2:3 with
the concrete duration measurement, at the first produced entry. -/
theorem gen_timings_running_clock_witness :
    (Timing.mk 1 6 0 2000).start_ms = 0 ∧
    (Timing.mk 1 6 0 2000).end_ms = (Timing.mk 1 6 0 2000).start_ms +
      (durEx (Timing.mk 1 6 0 2000).sura (Timing.mk 1 6 0 2000).aya).getD 2000 :=
  ⟨(gen_timings_running_clock durEx qdEx 1 6 2 3).2.2.2.1 ⟨1, 6, 0, 2000⟩ (by decide),
   (gen_timings_running_clock durEx qdEx 1 6 2 3).2.2.2.2 ⟨1, 6, 0, 2000⟩ (by decide)⟩

/-! ### Claim theorems: the video output path (C8) -/

/-- C8 (amended): the video output path is derived solely from the
sanitized display title (`/` and `:` replaced by `-`) — it does not depend
on the verse range at all, so different ranges sharing a title map to the
same path. -/
theorem gen_video_path_from_title (vl vl' : List String) (sa sa' : Nat)
    (title dir : String) :
    gen_video_path vl sa title dir =
      dir ++ "/" ++ (⟨(title.data.map fun c => if c = '/' then '-' else c).map
        fun c => if c = ':' then '-' else c⟩ : String) ++ ".mp4" ∧
    gen_video_path vl sa title dir = gen_video_path vl' sa' title dir :=
  ⟨rfl, rfl⟩

/-- C8 counterexample: two calls with different verse ranges but the same
display title collide on the output path. -/
theorem gen_video_path_collision :
    gen_video_path ["verse a"] 1 "Al-Baqarah (1-5)" "media" =
      gen_video_path ["verse b", "verse c"] 3 "Al-Baqarah (1-5)" "media" ∧
    (["verse a"], 1) ≠ (["verse b", "verse c"], 3) :=
  ⟨rfl, by decide⟩

end QuranBot
